/-
Verification of the Enpal Home Assistant integration
(custom_components/enpal/sensor.py and config_flow.py).

The development shallow-embeds the pure logic of the two Python modules:

* `_parse_value` (sensor.py) — a cell-text parser built from two regular
  expressions; modelled here by executable functions over `List Char` that
  implement the exact matching semantics of the two patterns
  (ASCII whitespace and ASCII digits; Python floats are modelled as `ℚ`,
  with the matched decimal literal kept as a `PyNum` record and interpreted
  into `ℚ` by `PyNum.toRat`).
* `_parse_device_messages_html` (sensor.py) — modelled at the DOM level:
  BeautifulSoup is an external library, so its output is represented as a
  list of tables, each with an optional tbody holding rows of cell strings
  (the cell strings stand for `get_text(strip=True)` results).
* `_EnpalData.async_update` (sensor.py) — the TTL-gated fetch/cache refresh;
  a single call is modelled as a pure state transition parameterised by the
  monotonic-clock readings and the fetch outcome, and the concurrent
  behaviour as a small-step interleaving machine over coroutine program
  counters with an explicit lock.
* `validate_ipv4`, `validate_device_messages`, `async_step_user`
  (config_flow.py) — direct functional models.
-/
import Mathlib

namespace Enpal

/-! ## Character-level helpers (Python `\s`, `\d` at ASCII level) -/

/-- Python's `\s` whitespace class, restricted to its ASCII members
(space, tab, newline, carriage return, vertical tab, form feed). -/
def pyIsSpace (c : Char) : Bool :=
  c = ' ' || c = '\t' || c = '\n' || c = '\r' || c = '\x0b' || c = '\x0c'

/-- Decimal value of a digit string (most significant digit first). -/
def digitsToNat (ds : List Char) : Nat :=
  ds.foldl (fun a c => a * 10 + (c.toNat - 48)) 0

/-- A decimal literal matched by `[-+]?\d+(?:\.\d+)?`: sign, integer part,
and the fractional digits as a value together with their count.  Python's
`float(...)` of the matched text is modelled by `PyNum.toRat`. -/
structure PyNum where
  neg : Bool
  intPart : Nat
  fracNum : Nat
  fracLen : Nat
deriving DecidableEq, Repr

/-- The rational value of a matched decimal literal. -/
def PyNum.toRat (n : PyNum) : ℚ :=
  (if n.neg then -1 else 1) * ((n.intPart : ℚ) + (n.fracNum : ℚ) / 10 ^ n.fracLen)

/-! ## The number grammar `[-+]?\d+(?:\.\d+)?` -/

/-- Decode the part after the optional sign, requiring the whole input to
be consumed (used for the parenthesized group of `_NUMBER_IN_PAREN`, which
is delimited on both sides). -/
def decodeDigits (cs1 : List Char) (neg : Bool) : Option PyNum :=
  let ds := cs1.takeWhile Char.isDigit
  let r2 := cs1.dropWhile Char.isDigit
  if ds.isEmpty then none
  else
    match r2 with
    | [] => some ⟨neg, digitsToNat ds, 0, 0⟩
    | '.' :: r3 =>
      let fs := r3.takeWhile Char.isDigit
      let r4 := r3.dropWhile Char.isDigit
      if fs.isEmpty then none
      else if r4.isEmpty then some ⟨neg, digitsToNat ds, digitsToNat fs, fs.length⟩
      else none
    | _ => none

/-- Exact-match decoder for `[-+]?\d+(?:\.\d+)?` (the group of
`_NUMBER_IN_PAREN`); `none` when the input is not exactly such a literal. -/
def decodeSignedDecimal (cs : List Char) : Option PyNum :=
  match cs with
  | '+' :: r => decodeDigits r false
  | '-' :: r => decodeDigits r true
  | r => decodeDigits r false

/-- Greedy scan of `[-+]?\d+(?:\.\d+)?` at the head of the input, returning
the matched literal and the unconsumed rest (the behaviour of the numeric
group of `_NUMBER_WITH_UNIT` under the regex engine's greedy matching). -/
def scanNumber (cs : List Char) : Option (PyNum × List Char) :=
  let neg : Bool := match cs with | '-' :: _ => true | _ => false
  let cs1 := match cs with | '+' :: r => r | '-' :: r => r | r => r
  let ds := cs1.takeWhile Char.isDigit
  let r2 := cs1.dropWhile Char.isDigit
  if ds.isEmpty then none
  else
    match r2 with
    | '.' :: r3 =>
      let fs := r3.takeWhile Char.isDigit
      let r4 := r3.dropWhile Char.isDigit
      if fs.isEmpty then some (⟨neg, digitsToNat ds, 0, 0⟩, r2)
      else some (⟨neg, digitsToNat ds, digitsToNat fs, fs.length⟩, r4)
    | _ => some (⟨neg, digitsToNat ds, 0, 0⟩, r2)

/-! ## The two regular expressions of sensor.py

`_NUMBER_IN_PAREN = \(([-+]?\d+(?:\.\d+)?)\)\s*$`, used with `re.search`:
the trailing `\s*$` forces the closing parenthesis to be the last
non-whitespace character, and since the group pattern cannot contain `(`,
the opening parenthesis of any match is the last `(` before it.  So the
search succeeds iff, after stripping trailing whitespace, the text ends in
`)` and the segment between the last `(` and that `)` is exactly a signed
decimal literal. -/

/-- Semantics of `_NUMBER_IN_PAREN.search`: the trailing parenthesized
number, if any. -/
def parenSearch (cs : List Char) : Option PyNum :=
  let r := cs.reverse.dropWhile pyIsSpace
  match r with
  | ')' :: rest =>
    let contentRev := rest.takeWhile (fun c => c ≠ '(')
    let rest2 := rest.dropWhile (fun c => c ≠ '(')
    match rest2 with
    | '(' :: _ => decodeSignedDecimal contentRev.reverse
    | _ => none
  | _ => none

/-- Check that `.*$` (no DOTALL, no MULTILINE) can match the remaining
text: `.` never matches a newline and `$` matches at the end of the string
or just before a newline that ends the string, so the rest may contain a
newline only as its final character. -/
def dotStarEndOk (cs : List Char) : Bool :=
  ! cs.dropLast.contains '\n'

/-- Semantics of `_NUMBER_WITH_UNIT.match` (pattern
`^\s*([-+]?\d+(?:\.\d+)?)\s*([^\d\s]+)?.*$`): leading whitespace, a signed
decimal, optional whitespace, then a maximal run of non-digit
non-whitespace characters as the unit group (absent when empty), then the
`.*$` tail condition.  Greedy matching makes every group take its maximal
run; failure of the tail condition cannot be repaired by backtracking
because shrinking a group only moves non-newline characters into the tail. -/
def matchNumberWithUnit (cs : List Char) : Option (PyNum × Option (List Char)) :=
  let cs1 := cs.dropWhile pyIsSpace
  match scanNumber cs1 with
  | none => none
  | some (q, rest) =>
    let rest1 := rest.dropWhile pyIsSpace
    let unit := rest1.takeWhile (fun c => !c.isDigit && !pyIsSpace c)
    let rest2 := rest1.dropWhile (fun c => !c.isDigit && !pyIsSpace c)
    if dotStarEndOk rest2 then
      some (q, if unit.isEmpty then none else some unit)
    else none

/-- Model of `_parse_value` (sensor.py lines 96–131): the parenthesized
trailing number takes priority; otherwise the number-with-unit pattern;
otherwise `(None, None)`.  (The `float` conversions in the source cannot
fail on strings matched by these patterns, so the `except ValueError`
branches are unreachable.) -/
def parseValue (s : String) : Option ℚ × Option String :=
  match parenSearch s.data with
  | some n => (some n.toRat, none)
  | none =>
    match matchNumberWithUnit s.data with
    | some (n, u) => (some n.toRat, u.map fun cs => String.mk cs)
    | none => (none, none)

/-! ## DOM-level model of `_parse_device_messages_html` (sensor.py 138–166)

BeautifulSoup is an external library; its result is modelled as a list of
tables.  `Row.tds` is the list of `get_text(strip=True)` texts of the
`td` cells of a `tr`; `Table.tbody` is `none` when the table has no
(truthy) tbody, otherwise the list of its rows. -/

/-- A `tr` element: the stripped texts of its `td` cells. -/
structure Row where
  tds : List String
deriving DecidableEq

/-- A `table` element with its optional `tbody`. -/
structure Table where
  tbody : Option (List Row)
deriving DecidableEq

/-- A parsed reading: `(value, unit)` as stored in the snapshot dict. -/
abbrev Reading := Option ℚ × Option String

/-- The snapshot mapping, modelling the insertion-ordered Python dict. -/
abbrev Snapshot := List (String × Reading)

/-- Python dict assignment `m[k] = v`: replace in place when the key is
present, append otherwise. -/
def dictInsert (m : Snapshot) (k : String) (v : Reading) : Snapshot :=
  if m.any (fun p => p.1 == k) then
    m.map (fun p => if p.1 == k then (k, v) else p)
  else m ++ [(k, v)]

/-- Python dict lookup `m.get(k)`. -/
def dictGet (m : Snapshot) (k : String) : Option Reading :=
  match m with
  | [] => none
  | p :: rest => if p.1 == k then some p.2 else dictGet rest k

/-- The Wh→kWh normalization (sensor.py 155–158): when the unit is `"Wh"`
and the value is not `None`, divide the value by 1000 and rewrite the unit
to `"kWh"`. -/
def normalizeWh (p : Reading) : Reading :=
  if p.2 = some "Wh" ∧ p.1.isSome then (p.1.map (fun v => v / 1000), some "kWh") else p

/-- Processing of one row's second cell (sensor.py 153–162): parse, apply
the Wh→kWh normalization, and drop the row when the value is `None`. -/
def processedCell (raw : String) : Option Reading :=
  match (normalizeWh (parseValue raw)).1 with
  | none => none
  | some _ => some (normalizeWh (parseValue raw))

/-- One loop iteration of the extractor over a `tr` (sensor.py 147–164):
rows with fewer than two cells are skipped, and rows whose processed value
is `None` are skipped; otherwise `data[name] = (value, unit)`. -/
def snapStep (acc : Snapshot) (r : Row) : Snapshot :=
  match r.tds with
  | name :: raw :: _ =>
    match processedCell raw with
    | some vu => dictInsert acc name vu
    | none => acc
  | _ => acc

/-- Model of `_parse_device_messages_html`: iterate over the tables, skip
tables without a tbody, and fold the rows of each tbody in document
order into the dict. -/
def parseDeviceMessages (tables : List Table) : Snapshot :=
  tables.foldl
    (fun acc t =>
      match t.tbody with
      | none => acc
      | some rows => rows.foldl snapStep acc)
    []

/-- All rows of the document in document order (rows of absent tbodies are
absent; a table without tbody contributes nothing). -/
def allRows : List Table → List Row
  | [] => []
  | t :: ts => (t.tbody.getD []) ++ allRows ts

/-- The contribution a row makes under a given row-name: its processed
reading when the row has at least two cells, its first cell equals the
name, and the second cell parses to a non-null value. -/
def rowContribution (name : String) (r : Row) : Option Reading :=
  match r.tds with
  | n :: raw :: _ => if n == name then processedCell raw else none
  | _ => none

/-- All contributing readings for a row-name, in document order. -/
def contributions (name : String) (rows : List Row) : List Reading :=
  rows.filterMap (rowContribution name)

/-! ## The fetch/cache manager `_EnpalData` (sensor.py 186–230)

A single `async_update` call is modelled as a pure state transition.  The
monotonic clock is sampled three times during a call (line 207 for the
first freshness check, line 215 for the re-check under the lock, line 230
for the new `_last_fetch`); the three readings are passed explicitly.  The
fetch `session.get(...)` + `resp.text()` either raises (timeout,
connection error, body-decode error) — modelled by `FetchOutcome.exn` —
or yields a response with a status code and a decoded body; the body is
represented by its DOM (`List Table`) since BeautifulSoup is external.
Note the source never inspects `resp.status`. -/

/-- Monotonic clock readings are rationals (Python floats as `ℚ`). -/
abbrev Time := ℚ

/-- `SCAN_INTERVAL = timedelta(seconds=60)` (sensor.py line 70),
as seconds. -/
def scanIntervalSeconds : ℚ := 60

/-- `self._ttl = int(SCAN_INTERVAL.total_seconds() / 2)` (line 194). -/
def cacheTtl : ℤ := ⌊scanIntervalSeconds / 2⌋

/-- The mutable state of `_EnpalData`: the cached snapshot and the
monotonic time of the last successful fetch. -/
structure EnpalData where
  cache : Snapshot
  lastFetch : Time

/-- Outcome of the HTTP GET inside `async_update`. -/
inductive FetchOutcome where
  | resp (status : Nat) (tables : List Table)
  | exn (msg : String)
deriving DecidableEq

/-- Result classification of one `async_update` call, recording which exit
path was taken (`warned` is the `_LOGGER.warning` path of line 226). -/
inductive UpdateResult where
  | skippedFresh
  | skippedFreshLocked
  | warned (msg : String)
  | updated
deriving DecidableEq

/-- The freshness test `self._cache and now - self._last_fetch < self._ttl`
(lines 209 and 216): the cache must be non-empty (truthy) and younger than
the TTL. -/
def isFresh (st : EnpalData) (now : Time) : Bool :=
  !st.cache.isEmpty && decide (now - st.lastFetch < (cacheTtl : ℚ))

/-- Model of `_EnpalData.async_update` (lines 205–230): return immediately
when fresh; re-check freshness under the lock; then fetch.  An exception
is caught, logged as a warning, and leaves the state untouched; a response
— whatever its status — has its body parsed and replaces the cache, and
the timestamp is updated. -/
def asyncUpdate (st : EnpalData) (now1 now2 now3 : Time) (outcome : FetchOutcome) :
    EnpalData × UpdateResult :=
  if isFresh st now1 then (st, .skippedFresh)
  else if isFresh st now2 then (st, .skippedFreshLocked)
  else
    match outcome with
    | .exn msg => (st, .warned msg)
    | .resp _ tables => (⟨parseDeviceMessages tables, now3⟩, .updated)

/-! ## Interleaving model of concurrent `async_update` calls (C3)

Home Assistant's event loop is single-process cooperative concurrency: N
coroutines execute `async_update` on the same `_EnpalData` instance, and
the scheduler interleaves them at await points.  Each coroutine is
modelled by a program counter; the shared state is the cache, the
timestamp, the `asyncio.Lock`, and a counter of dispatched HTTP GETs.
The monotonic clock is held fixed at `now` for the burst of simultaneous
calls, and the k-th dispatched GET resolves to `oracle k`. -/

/-- Program points of one coroutine inside `async_update`:
before the first freshness check; waiting for the lock; holding the lock
before the re-check; awaiting the HTTP GET; and returned. -/
inductive Pc where
  | start
  | wait
  | locked
  | fetching
  | done
deriving DecidableEq

/-- Global state: `n` coroutines (indices `< n`), their program counters,
the lock holder, the shared cache and timestamp, and the number of HTTP
GETs dispatched so far. -/
structure Sys where
  n : Nat
  pcs : Nat → Pc
  holder : Option Nat
  cache : Snapshot
  lastF : Time
  fc : Nat

/-- The freshness test of lines 209/216 evaluated on the shared state. -/
def sysFresh (now : Time) (s : Sys) : Bool :=
  !s.cache.isEmpty && decide (now - s.lastF < (cacheTtl : ℚ))

/-- One atomic scheduling step of the interleaved execution of
`async_update` (sensor.py 205–230). -/
inductive Step (now : Time) (oracle : Nat → FetchOutcome) : Sys → Sys → Prop where
  | checkFresh (s : Sys) (i : Nat) (hi : i < s.n) (hpc : s.pcs i = .start)
      (hf : sysFresh now s = true) :
      Step now oracle s { s with pcs := Function.update s.pcs i .done }
  | checkStale (s : Sys) (i : Nat) (hi : i < s.n) (hpc : s.pcs i = .start)
      (hf : sysFresh now s = false) :
      Step now oracle s { s with pcs := Function.update s.pcs i .wait }
  | acquire (s : Sys) (i : Nat) (hi : i < s.n) (hpc : s.pcs i = .wait)
      (hl : s.holder = none) :
      Step now oracle s
        { s with pcs := Function.update s.pcs i .locked, holder := some i }
  | recheckFresh (s : Sys) (i : Nat) (hi : i < s.n) (hpc : s.pcs i = .locked)
      (hl : s.holder = some i) (hf : sysFresh now s = true) :
      Step now oracle s
        { s with pcs := Function.update s.pcs i .done, holder := none }
  | recheckStale (s : Sys) (i : Nat) (hi : i < s.n) (hpc : s.pcs i = .locked)
      (hl : s.holder = some i) (hf : sysFresh now s = false) :
      Step now oracle s
        { s with pcs := Function.update s.pcs i .fetching, fc := s.fc + 1 }
  | fetchExn (s : Sys) (i : Nat) (hi : i < s.n) (hpc : s.pcs i = .fetching)
      (hl : s.holder = some i) (msg : String)
      (ho : oracle (s.fc - 1) = .exn msg) :
      Step now oracle s
        { s with pcs := Function.update s.pcs i .done, holder := none }
  | fetchResp (s : Sys) (i : Nat) (hi : i < s.n) (hpc : s.pcs i = .fetching)
      (hl : s.holder = some i) (status : Nat) (tables : List Table)
      (ho : oracle (s.fc - 1) = .resp status tables) :
      Step now oracle s
        { s with pcs := Function.update s.pcs i .done, holder := none,
                 cache := parseDeviceMessages tables, lastF := now }

/-- Reachability under the interleaving semantics. -/
def Reachable (now : Time) (oracle : Nat → FetchOutcome) : Sys → Sys → Prop :=
  Relation.ReflTransGen (Step now oracle)

/-- All coroutines have returned. -/
def TerminalSys (s : Sys) : Prop := ∀ i < s.n, s.pcs i = Pc.done

/-- All coroutines are about to call `async_update`, the lock is free, and
no GET has been dispatched. -/
def InitialSys (s : Sys) : Prop :=
  (∀ i, s.pcs i = Pc.start) ∧ s.holder = none ∧ s.fc = 0

/-- Inductive invariant of the machine, relative to the initial cache
`c0` / timestamp `l0` and the body `tables0` of the first (and, as proved,
only) fetch. -/
def Inv (now : Time) (n0 : Nat) (c0 : Snapshot) (l0 : Time)
    (tables0 : List Table) (s : Sys) : Prop :=
  s.n = n0 ∧
  (∀ i, s.holder = some i → (s.pcs i = Pc.locked ∨ s.pcs i = Pc.fetching)) ∧
  (∀ i, (s.pcs i = Pc.locked ∨ s.pcs i = Pc.fetching) → s.holder = some i) ∧
  (∀ i, s.n ≤ i → s.pcs i = Pc.start) ∧
  s.fc ≤ 1 ∧
  (s.fc = 0 → s.cache = c0 ∧ s.lastF = l0 ∧
    (∀ i, s.pcs i ≠ Pc.fetching) ∧ (∀ i, s.pcs i ≠ Pc.done)) ∧
  (s.fc = 1 →
    ((∃ i, s.pcs i = Pc.fetching) ∧ s.cache = c0 ∧ s.lastF = l0) ∨
    ((∀ i, s.pcs i ≠ Pc.fetching) ∧
      s.cache = parseDeviceMessages tables0 ∧ s.lastF = now))

/-- A one-table document whose extraction is non-empty, used by the C3
witness. -/
def demoTables : List Table := [⟨some [⟨["A", "5 W"]⟩]⟩]

/-- Initial state for the C3 witness: one caller, empty (hence stale)
cache. -/
def c3S0 : Sys := ⟨1, fun _ => Pc.start, none, [], 0, 0⟩

/-- Oracle for the C3 witness: every fetch returns HTTP 200 with
`demoTables`. -/
def c3Oracle : Nat → FetchOutcome := fun _ => .resp 200 demoTables

/-- Final state of the C3 witness execution. -/
def c3Sf : Sys :=
  ⟨1,
   Function.update (Function.update (Function.update (Function.update
     (fun _ => Pc.start) 0 Pc.wait) 0 Pc.locked) 0 Pc.fetching) 0 Pc.done,
   none, parseDeviceMessages demoTables, 0, 1⟩

/-- Oracle for the C3 counterexample: the fetch always raises (connection
refused). -/
def cexOracle : Nat → FetchOutcome := fun _ => .exn "connection refused"

/-- Initial state for the C3 counterexample: two callers, empty (hence
stale) cache. -/
def cexS0 : Sys := ⟨2, fun _ => Pc.start, none, [], 0, 0⟩

/-- Final state of the C3 counterexample execution: both callers fetched. -/
def cexSf : Sys :=
  ⟨2,
   Function.update (Function.update (Function.update (Function.update
    (Function.update (Function.update (Function.update (Function.update
     (fun _ => Pc.start) 0 Pc.wait) 0 Pc.locked) 0 Pc.fetching) 0 Pc.done)
       1 Pc.wait) 1 Pc.locked) 1 Pc.fetching) 1 Pc.done,
   none, [], 0, 2⟩

/-! ## config_flow.py: `validate_ipv4`, `validate_device_messages`,
`async_step_user` -/

/-- Python `s.split('.')` over the character list ('.' as separator;
splitting the empty string yields `[""]`). -/
def splitDot : List Char → List (List Char)
  | [] => [[]]
  | c :: rest =>
    match splitDot rest with
    | [] => [[]]
    | p :: ps => if c = '.' then [] :: p :: ps else (c :: p) :: ps

/-- Rejoin dot-separated parts (inverse of `splitDot`). -/
def joinDots : List (List Char) → List Char
  | [] => []
  | p :: ps =>
    match ps with
    | [] => p
    | _ :: _ => p ++ '.' :: joinDots ps

/-- One part of the dotted quad as checked by the loop body of
`validate_ipv4` (config_flow.py 30–35): `x.isdigit()` (non-empty, all
digits — ASCII level) and `0 ≤ int(x) ≤ 255` (the lower bound is vacuous
for digit strings). -/
def validPart (p : List Char) : Bool :=
  !p.isEmpty && p.all Char.isDigit && decide (digitsToNat p ≤ 255)

/-- Model of `validate_ipv4` (config_flow.py 25–36). -/
def validate_ipv4 (s : String) : Bool :=
  let a := splitDot s.data
  if a.length ≠ 4 then false else a.all validPart

/-- The default value of the `enpal_host_ip` field of `CONFIG_SCHEMA`
(config_flow.py line 21). -/
def configDefaultHost : String := "192.168.178"

/-- Outcome of the configuration-time probe request
`GET http://<ip>/deviceMessages`: a response with status code and decoded
body text, or a raised exception. -/
inductive ProbeOutcome where
  | resp (status : Nat) (body : String)
  | exn (msg : String)
deriving DecidableEq

/-- Python `c.lower()` at the ASCII level. -/
def asciiLower (c : Char) : Char :=
  if 'A' ≤ c ∧ c ≤ 'Z' then Char.ofNat (c.toNat + 32) else c

/-- Substring test (`needle in hay` for Python strings). -/
def hasSubstring : List Char → List Char → Bool
  | [], needle => needle.isEmpty
  | c :: rest, needle => needle.isPrefixOf (c :: rest) || hasSubstring rest needle

/-- Model of `validate_device_messages` (config_flow.py 43–53): on a
response, succeed iff the status is 200 *and* the lowercased body contains
`"power"`; on an exception, log and return `False`. -/
def validate_device_messages (outcome : ProbeOutcome) : Bool :=
  match outcome with
  | .resp status body =>
    if status = 200 then hasSubstring (body.data.map asciiLower) "power".data
    else false
  | .exn _ => false

/-- Result of one `async_step_user` round (config_flow.py 58–72): either a
created config entry or the form shown again with the `base` error slot. -/
inductive FlowResult where
  | createEntry (title : String) (host : String)
  | showForm (errorBase : Option String)
deriving DecidableEq

/-- Model of `CustomFlow.async_step_user`: `userInput` is the submitted
form value of `enpal_host_ip` (`none` on first display), and `probeOk`
stands for the awaited `validate_device_messages` call against the given
host. -/
def async_step_user (userInput : Option String) (probeOk : String → Bool) :
    FlowResult :=
  match userInput with
  | none => .showForm none
  | some ip =>
    if !validate_ipv4 ip then .showForm (some "invalid_ip")
    else if !probeOk ip then .showForm (some "invalid_device_messages")
    else .createEntry "Enpal" ip

/-- The condition the claim states for one dotted-quad part: non-empty,
digits only, and the denoted integer is between 0 and 255. -/
def ipv4PartOk (p : List Char) : Prop :=
  p ≠ [] ∧ (∀ c ∈ p, c.isDigit = true) ∧ digitsToNat p ≤ 255

/-- The claim's characterisation of accepted host strings: four
dot-separated parts, each all-digits denoting an integer in 0..255. -/
def ipv4SpecDescription (s : String) : Prop :=
  ∃ p1 p2 p3 p4 : List Char,
    s.data = p1 ++ '.' :: (p2 ++ '.' :: (p3 ++ '.' :: p4)) ∧
    ipv4PartOk p1 ∧ ipv4PartOk p2 ∧ ipv4PartOk p3 ∧ ipv4PartOk p4

/-! ## List helper lemmas used for the parser proofs -/

theorem dropWhileAppendAll {p : Char → Bool} {l1 : List Char} (l2 : List Char)
    (h : ∀ c ∈ l1, p c = true) :
    (l1 ++ l2).dropWhile p = l2.dropWhile p := by
  induction l1 with
  | nil => rfl
  | cons a t ih =>
    have ha : p a = true := h a (by simp)
    simp only [List.cons_append, List.dropWhile_cons, ha, if_true]
    exact ih fun c hc => h c (by simp [hc])

theorem dropWhileAppendStop {p : Char → Bool} {l1 : List Char} {a : Char} (l2 : List Char)
    (h : ∀ c ∈ l1, p c = true) (ha : p a = false) :
    (l1 ++ a :: l2).dropWhile p = a :: l2 := by
  rw [dropWhileAppendAll (a :: l2) h, List.dropWhile_cons, ha]
  simp

theorem takeWhileAppendStop {p : Char → Bool} {l1 : List Char} {a : Char} (l2 : List Char)
    (h : ∀ c ∈ l1, p c = true) (ha : p a = false) :
    (l1 ++ a :: l2).takeWhile p = l1 := by
  induction l1 with
  | nil => simp [List.takeWhile_cons, ha]
  | cons b t ih =>
    have hb : p b = true := h b (by simp)
    simp only [List.cons_append, List.takeWhile_cons, hb, if_true]
    rw [ih fun c hc => h c (by simp [hc])]

theorem memTakeWhile {p : Char → Bool} : ∀ (l : List Char) (c : Char),
    c ∈ l.takeWhile p → p c = true := by
  intro l
  induction l with
  | nil => simp
  | cons a t ih =>
    intro c hc
    rw [List.takeWhile_cons] at hc
    by_cases hp : p a = true
    · rw [if_pos hp] at hc
      rcases List.mem_cons.1 hc with h | h
      · exact h ▸ hp
      · exact ih c h
    · rw [if_neg hp] at hc
      exact absurd hc (List.not_mem_nil c)

/-! ## Character shape of a decoded decimal literal -/

theorem decodeDigitsChars {cs1 : List Char} {neg : Bool} {n : PyNum}
    (h : decodeDigits cs1 neg = some n) :
    ∀ c ∈ cs1, c.isDigit = true ∨ c = '.' := by
  intro c hc
  unfold decodeDigits at h
  by_cases hds : (cs1.takeWhile Char.isDigit).isEmpty
  · simp [hds] at h
  · simp only [hds, if_false, Bool.false_eq_true] at h
    rw [← List.takeWhile_append_dropWhile (p := Char.isDigit) (l := cs1)] at hc
    rcases List.mem_append.1 hc with hmem | hmem
    · exact Or.inl (memTakeWhile _ c hmem)
    · -- c is in the dropWhile part; analyse the shape `h` forces on it
      split at h
      · rename_i heq
        rw [heq] at hmem
        exact absurd hmem (List.not_mem_nil c)
      · rename_i r3 heq
        rw [heq] at hmem
        by_cases hfs : (r3.takeWhile Char.isDigit).isEmpty
        · simp [hfs] at h
        · by_cases hr4 : (r3.dropWhile Char.isDigit).isEmpty
          · rcases List.mem_cons.1 hmem with hcd | hcd
            · exact Or.inr hcd
            · have hr3 : r3.takeWhile Char.isDigit = r3 := by
                have := List.takeWhile_append_dropWhile (p := Char.isDigit) (l := r3)
                rwa [List.isEmpty_iff.1 hr4, List.append_nil] at this
              exact Or.inl (memTakeWhile _ c (hr3 ▸ hcd))
          · simp [hfs, hr4] at h
      · rename_i heq
        exact absurd h (by simp)

theorem decodeSignedDecimalChars {cs : List Char} {n : PyNum}
    (h : decodeSignedDecimal cs = some n) :
    ∀ c ∈ cs, c ≠ '(' := by
  have hdig : ∀ (c : Char), c.isDigit = true ∨ c = '.' → c ≠ '(' := by
    intro c hc heq
    subst heq
    rcases hc with hc | hc
    · exact absurd hc (by decide)
    · exact absurd hc (by decide)
  unfold decodeSignedDecimal at h
  split at h
  · -- cs = '+' :: r
    rename_i r
    intro c hc
    rcases List.mem_cons.1 hc with hcd | hcd
    · subst hcd; decide
    · exact hdig c (decodeDigitsChars h c hcd)
  · -- cs = '-' :: r
    rename_i r
    intro c hc
    rcases List.mem_cons.1 hc with hcd | hcd
    · subst hcd; decide
    · exact hdig c (decodeDigitsChars h c hcd)
  · -- catch-all: the whole of cs is decoded by decodeDigits
    intro c hc
    exact hdig c (decodeDigitsChars h c hc)

/-! ## Claim theorems for the value parser -/

/-- C4: the value parser satisfies the four reference examples of the spec:
`parse("18.52kWh") = (18.52, "kWh")`, `parse("2366.35 W") = (2366.35, "W")`,
`parse("On-grid mode (200)") = (200.0, null)`, and
`parse("garbage") = (null, null)`. -/
theorem C4_parse_reference_examples :
    parseValue "18.52kWh" = (some 18.52, some "kWh") ∧
    parseValue "2366.35 W" = (some 2366.35, some "W") ∧
    parseValue "On-grid mode (200)" = (some 200, none) ∧
    parseValue "garbage" = (none, none) := by
  refine ⟨?_, ?_, ?_, by decide⟩
  · have hp : parenSearch "18.52kWh".data = none := by decide
    have hm : matchNumberWithUnit "18.52kWh".data
        = some (⟨false, 18, 52, 2⟩, some "kWh".data) := by decide
    simp only [parseValue, hp, hm, Option.map_some]
    refine Prod.ext ?_ rfl
    simp only [Option.some.injEq]
    norm_num [PyNum.toRat]
  · have hp : parenSearch "2366.35 W".data = none := by decide
    have hm : matchNumberWithUnit "2366.35 W".data
        = some (⟨false, 2366, 35, 2⟩, some "W".data) := by decide
    simp only [parseValue, hp, hm, Option.map_some]
    refine Prod.ext ?_ rfl
    simp only [Option.some.injEq]
    norm_num [PyNum.toRat]
  · have hp : parenSearch "On-grid mode (200)".data = some ⟨false, 200, 0, 0⟩ := by decide
    simp only [parseValue, hp]
    refine Prod.ext ?_ rfl
    simp only [Option.some.injEq]
    norm_num [PyNum.toRat]

theorem parenSearchAppend (pre sd wsd : List Char) (n : PyNum)
    (hs : decodeSignedDecimal sd = some n)
    (hws : ∀ c ∈ wsd, pyIsSpace c = true) :
    parenSearch (pre ++ '(' :: (sd ++ ')' :: wsd)) = some n := by
  have hrev : (pre ++ '(' :: (sd ++ ')' :: wsd)).reverse
      = wsd.reverse ++ ')' :: (sd.reverse ++ '(' :: pre.reverse) := by
    simp
  have hwsr : ∀ c ∈ wsd.reverse, pyIsSpace c = true := by
    intro c hc; exact hws c (List.mem_reverse.1 hc)
  have hdrop : (wsd.reverse ++ ')' :: (sd.reverse ++ '(' :: pre.reverse)).dropWhile pyIsSpace
      = ')' :: (sd.reverse ++ '(' :: pre.reverse) :=
    dropWhileAppendStop _ hwsr (by decide)
  have hsdr : ∀ c ∈ sd.reverse, (fun c => decide (c ≠ '(')) c = true := by
    intro c hc
    simp only [decide_eq_true_eq]
    exact decodeSignedDecimalChars hs c (List.mem_reverse.1 hc)
  unfold parenSearch
  rw [hrev, hdrop]
  simp only
  rw [takeWhileAppendStop _ hsdr (by simp), dropWhileAppendStop _ hsdr (by simp)]
  simp only [List.reverse_reverse]
  exact hs

/-- C5: for every input string that ends with a parenthesized signed
decimal number (literal `(`, optional sign, digits, optional `.` plus
digits, literal `)`, optional trailing whitespace, end of string), the
value parser returns that parenthetical number as the value with the unit
absent — with priority over the number-followed-by-unit pattern, since the
prefix `pre` is arbitrary and may itself start with a number. -/
theorem C5_trailing_paren_priority (pre s ws : String) (n : PyNum)
    (hs : decodeSignedDecimal s.data = some n)
    (hws : ∀ c ∈ ws.data, pyIsSpace c = true) :
    parseValue (pre ++ "(" ++ s ++ ")" ++ ws) = (some n.toRat, none) := by
  have hdata : (pre ++ "(" ++ s ++ ")" ++ ws).data
      = pre.data ++ '(' :: (s.data ++ ')' :: ws.data) := by
    simp [String.data_append]
  unfold parseValue
  rw [hdata, parenSearchAppend pre.data s.data ws.data n hs hws]

/-- Witness for C5 at a concrete input whose prefix itself starts with a
number. -/
theorem C5_witness :
    decodeSignedDecimal ("200" : String).data = some ⟨false, 200, 0, 0⟩ ∧
    (∀ c ∈ (" " : String).data, pyIsSpace c = true) ∧
    parseValue ("12x" ++ "(" ++ "200" ++ ")" ++ " ")
      = (some (PyNum.toRat ⟨false, 200, 0, 0⟩), none) :=
  ⟨by decide, by decide,
    C5_trailing_paren_priority "12x" "200" " " ⟨false, 200, 0, 0⟩ (by decide) (by decide)⟩

/-! ## Dict lemmas -/

theorem dictGetMapReplace (k : String) (v : Reading) :
    ∀ (m : Snapshot), m.any (fun p => p.1 == k) = true →
    dictGet (m.map (fun p => if p.1 == k then (k, v) else p)) k = some v := by
  intro m
  induction m with
  | nil => intro h; simp at h
  | cons p rest ih =>
    intro h
    simp only [List.map_cons]
    by_cases hp : (p.1 == k) = true
    · rw [if_pos hp]
      simp [dictGet]
    · rw [if_neg hp]
      unfold dictGet
      rw [if_neg hp]
      apply ih
      simp only [List.any_cons, hp, Bool.false_or] at h
      exact h

theorem dictGetAppendNew (k : String) (v : Reading) :
    ∀ (m : Snapshot), m.any (fun p => p.1 == k) = false →
    dictGet (m ++ [(k, v)]) k = some v := by
  intro m
  induction m with
  | nil => intro _; simp [dictGet]
  | cons p rest ih =>
    intro h
    simp only [List.any_cons, Bool.or_eq_false_iff] at h
    rw [List.cons_append]
    unfold dictGet
    rw [if_neg (by simp [h.1])]
    exact ih h.2

theorem dictGetInsertSelf (m : Snapshot) (k : String) (v : Reading) :
    dictGet (dictInsert m k v) k = some v := by
  unfold dictInsert
  by_cases h : m.any (fun p => p.1 == k) = true
  · rw [if_pos h]; exact dictGetMapReplace k v m h
  · rw [if_neg h]
    exact dictGetAppendNew k v m (Bool.not_eq_true _ ▸ h)

theorem dictGetMapReplaceNe (k : String) (v : Reading) (k' : String) (hne : k' ≠ k) :
    ∀ (m : Snapshot),
    dictGet (m.map (fun p => if p.1 == k then (k, v) else p)) k' = dictGet m k' := by
  have hkk : (k == k') = false := by
    simp only [beq_eq_false_iff_ne, ne_eq]
    exact fun he => hne he.symm
  intro m
  induction m with
  | nil => rfl
  | cons p rest ih =>
    simp only [List.map_cons]
    by_cases hp : (p.1 == k) = true
    · have hp1 : (p.1 == k') = false := by
        have : p.1 = k := by simpa using hp
        rw [this]; exact hkk
      rw [if_pos hp]
      unfold dictGet
      rw [if_neg (by simp [hkk]), if_neg (by simp [hp1])]
      exact ih
    · rw [if_neg hp]
      unfold dictGet
      by_cases hpk : (p.1 == k') = true
      · rw [if_pos hpk, if_pos hpk]
      · rw [if_neg hpk, if_neg hpk]
        exact ih

theorem dictGetAppendNe (k : String) (v : Reading) (k' : String) (hne : k' ≠ k) :
    ∀ (m : Snapshot), dictGet (m ++ [(k, v)]) k' = dictGet m k' := by
  have hkk : (k == k') = false := by
    simp only [beq_eq_false_iff_ne, ne_eq]
    exact fun he => hne he.symm
  intro m
  induction m with
  | nil => simp [dictGet, hkk]
  | cons p rest ih =>
    rw [List.cons_append]
    unfold dictGet
    by_cases hpk : (p.1 == k') = true
    · rw [if_pos hpk, if_pos hpk]
    · rw [if_neg hpk, if_neg hpk]
      exact ih

theorem dictGetInsertNe (m : Snapshot) (k : String) (v : Reading) (k' : String)
    (hne : k' ≠ k) :
    dictGet (dictInsert m k v) k' = dictGet m k' := by
  unfold dictInsert
  by_cases h : m.any (fun p => p.1 == k) = true
  · rw [if_pos h]; exact dictGetMapReplaceNe k v k' hne m
  · rw [if_neg h]; exact dictGetAppendNe k v k' hne m

theorem memDictInsert (m : Snapshot) (k : String) (v : Reading) :
    ∀ q ∈ dictInsert m k v, q = (k, v) ∨ q ∈ m := by
  intro q hq
  unfold dictInsert at hq
  by_cases h : m.any (fun p => p.1 == k) = true
  · rw [if_pos h] at hq
    rcases List.mem_map.1 hq with ⟨p, hpm, hpe⟩
    by_cases hp : (p.1 == k) = true
    · rw [if_pos hp] at hpe; exact Or.inl hpe.symm
    · rw [if_neg hp] at hpe; exact Or.inr (hpe ▸ hpm)
  · rw [if_neg h] at hq
    rcases List.mem_append.1 hq with hm | hm
    · exact Or.inr hm
    · simp only [List.mem_singleton] at hm
      exact Or.inl hm

/-! ## Structure lemmas for the extractor -/

theorem parseDeviceMessagesEqFoldl : ∀ (tables : List Table) (acc : Snapshot),
    tables.foldl
      (fun acc t =>
        match t.tbody with
        | none => acc
        | some rows => rows.foldl snapStep acc)
      acc
    = (allRows tables).foldl snapStep acc := by
  intro tables
  induction tables with
  | nil => intro acc; rfl
  | cons t ts ih =>
    intro acc
    rw [List.foldl_cons]
    unfold allRows
    rw [List.foldl_append]
    cases ht : t.tbody with
    | none => simp only [ht, Option.getD_none, List.foldl_nil]; exact ih acc
    | some rows => simp only [ht, Option.getD_some]; exact ih _

theorem processedCellNoneOfParseNone {raw : String}
    (h : (parseValue raw).1 = none) : processedCell raw = none := by
  have hcond : ¬((parseValue raw).2 = some "Wh" ∧ (parseValue raw).1.isSome = true) := by
    rintro ⟨-, hs⟩
    rw [h] at hs
    simp at hs
  unfold processedCell normalizeWh
  rw [if_neg hcond, h]

theorem processedCellIsSome {raw : String} {vu : Reading}
    (h : processedCell raw = some vu) : vu.1.isSome = true := by
  unfold processedCell at h
  split at h
  · exact absurd h (by simp)
  · rename_i x heq
    rw [Option.some_inj.1 h] at heq
    simp [heq]

theorem snapStepMem (acc : Snapshot) (r : Row)
    (hacc : ∀ p ∈ acc, p.2.1.isSome = true) :
    ∀ p ∈ snapStep acc r, p.2.1.isSome = true := by
  intro p hp
  unfold snapStep at hp
  split at hp
  · rename_i name raw t heq
    cases hpc : processedCell raw with
    | none => rw [hpc] at hp; exact hacc p hp
    | some vu =>
      rw [hpc] at hp
      rcases memDictInsert acc name vu p hp with he | hm
      · rw [he]; exact processedCellIsSome hpc
      · exact hacc p hm
  · exact hacc p hp

theorem foldlSnapStepMem : ∀ (rows : List Row) (acc : Snapshot),
    (∀ p ∈ acc, p.2.1.isSome = true) →
    ∀ p ∈ rows.foldl snapStep acc, p.2.1.isSome = true := by
  intro rows
  induction rows with
  | nil => intro acc h; simpa using h
  | cons r rest ih =>
    intro acc h
    rw [List.foldl_cons]
    exact ih _ (snapStepMem acc r h)

theorem dictGetFoldlSnapStep (name : String) :
    ∀ (rows : List Row) (acc : Snapshot),
    dictGet (rows.foldl snapStep acc) name =
      match (contributions name rows).getLast? with
      | some v => some v
      | none => dictGet acc name := by
  intro rows
  induction rows with
  | nil => intro acc; simp [contributions]
  | cons r rest ih =>
    intro acc
    rw [List.foldl_cons, ih (snapStep acc r)]
    cases hrc : rowContribution name r with
    | none =>
      have hstep : dictGet (snapStep acc r) name = dictGet acc name := by
        unfold snapStep
        unfold rowContribution at hrc
        split at hrc
        · rename_i n raw t heq
          by_cases hn : (n == name) = true
          · rw [if_pos hn] at hrc
            rw [hrc]
          · rw [if_neg hn] at hrc
            cases hpc : processedCell raw with
            | none => rfl
            | some vu =>
              exact dictGetInsertNe acc n vu name
                (fun he => hn (by simp [he]))
        · rfl
      rw [hstep]
      have hcon : contributions name (r :: rest) = contributions name rest := by
        simp [contributions, List.filterMap_cons, hrc]
      rw [hcon]
    | some v =>
      have hshape : ∃ n raw t, r.tds = n :: raw :: t ∧ n = name ∧
          processedCell raw = some v := by
        unfold rowContribution at hrc
        split at hrc
        · rename_i n raw t heq
          by_cases hn : (n == name) = true
          · rw [if_pos hn] at hrc
            exact ⟨n, raw, t, heq, by simpa using hn, hrc⟩
          · rw [if_neg hn] at hrc
            exact absurd hrc (by simp)
        · exact absurd hrc (by simp)
      rcases hshape with ⟨n, raw, t, htds, hn, hpc⟩
      have hstep : snapStep acc r = dictInsert acc name v := by
        unfold snapStep
        rw [htds]
        simp only [hpc, hn]
      rw [hstep]
      have hcon : contributions name (r :: rest) = v :: contributions name rest := by
        simp [contributions, List.filterMap_cons, hrc]
      rw [hcon]
      cases hcr : contributions name rest with
      | nil => simp [dictGetInsertSelf]
      | cons w ws =>
        rw [List.getLast?_cons_cons]
        cases hl : (w :: ws).getLast? with
        | none => simp at hl
        | some x => rfl

/-! ## Claim theorems for the extractor -/

/-- C6: a cell whose parsed result has unit `"Wh"` and a non-null value `v`
is stored as value `v / 1000` with unit `"kWh"`; any other parsed result
with a non-null value is stored unchanged (no other unit is converted or
rescaled), and a successfully processed row is inserted as-is into the
snapshot dict. -/
theorem C6_wh_normalization :
    (∀ (raw : String) (v : ℚ), parseValue raw = (some v, some "Wh") →
        processedCell raw = some (some (v / 1000), some "kWh")) ∧
    (∀ (raw : String) (v : ℚ) (u : Option String), parseValue raw = (some v, u) →
        u ≠ some "Wh" → processedCell raw = some (some v, u)) ∧
    (∀ (acc : Snapshot) (n raw : String) (rest : List String) (vu : Reading),
        processedCell raw = some vu →
        snapStep acc ⟨n :: raw :: rest⟩ = dictInsert acc n vu) := by
  refine ⟨?_, ?_, ?_⟩
  · intro raw v h
    unfold processedCell normalizeWh
    rw [h]
    rw [if_pos ⟨rfl, rfl⟩]
    rfl
  · intro raw v u h hu
    unfold processedCell normalizeWh
    rw [h]
    rw [if_neg (by rintro ⟨hwh, -⟩; exact hu hwh)]
  · intro acc n raw rest vu h
    unfold snapStep
    simp only
    rw [h]

/-- Witness for C6 at the spec's own example: `"1500Wh"` parses to
`(1500, "Wh")` and is normalized to `(1500/1000, "kWh")`. -/
theorem C6_witness :
    parseValue "1500Wh" = (some 1500, some "Wh") ∧
    processedCell "1500Wh" = some (some ((1500 : ℚ) / 1000), some "kWh") := by
  have h : parseValue "1500Wh" = (some 1500, some "Wh") := by
    have hp : parenSearch "1500Wh".data = none := by decide
    have hm : matchNumberWithUnit "1500Wh".data
        = some (⟨false, 1500, 0, 0⟩, some "Wh".data) := by decide
    simp only [parseValue, hp, hm, Option.map_some]
    refine Prod.ext ?_ rfl
    simp only [Option.some.injEq]
    norm_num [PyNum.toRat]
  exact ⟨h, C6_wh_normalization.1 "1500Wh" 1500 h⟩

/-- C7: the extractor skips rows with fewer than two cells and rows whose
second cell parses to a null value, and consequently every reading stored
in the snapshot has a non-null numeric value. -/
theorem C7_extractor_row_filters :
    (∀ (acc : Snapshot) (r : Row), r.tds.length < 2 → snapStep acc r = acc) ∧
    (∀ (acc : Snapshot) (n raw : String) (rest : List String),
        (parseValue raw).1 = none → snapStep acc ⟨n :: raw :: rest⟩ = acc) ∧
    (∀ (tables : List Table), ∀ p ∈ parseDeviceMessages tables, p.2.1.isSome = true) := by
  refine ⟨?_, ?_, ?_⟩
  · intro acc r h
    unfold snapStep
    split
    · rename_i name raw t heq
      rw [heq] at h
      simp only [List.length_cons] at h
      exact absurd h (by omega)
    · rfl
  · intro acc n raw rest h
    unfold snapStep
    simp only
    rw [processedCellNoneOfParseNone h]
  · intro tables p hp
    have hpm : parseDeviceMessages tables = (allRows tables).foldl snapStep [] :=
      parseDeviceMessagesEqFoldl tables []
    rw [hpm] at hp
    exact foldlSnapStepMem (allRows tables) [] (by simp) p hp

/-- Witness for C7: a one-cell row and a null-parsing row are both
skipped, and a stored reading has a non-null value. -/
theorem C7_witness :
    ((⟨["only"]⟩ : Row).tds.length < 2 ∧ snapStep [] ⟨["only"]⟩ = []) ∧
    ((parseValue "garbage").1 = none ∧ snapStep [] ⟨["A", "garbage", "x"]⟩ = []) ∧
    (("A", (some (PyNum.toRat ⟨false, 5, 0, 0⟩), some "W")) : String × Reading).2.1.isSome
      = true := by
  refine ⟨⟨by decide, C7_extractor_row_filters.1 [] _ (by decide)⟩,
          ⟨by decide, C7_extractor_row_filters.2.1 [] "A" "garbage" ["x"] (by decide)⟩,
          C7_extractor_row_filters.2.2 [⟨some [⟨["A", "5 W"]⟩]⟩] _ ?_⟩
  exact List.mem_singleton_self _

/-- C8: when the document contains two or more rows with the same row-name
whose second cells parse to non-null values, the snapshot maps that name to
the reading of the contributing row occurring latest in document order. -/
theorem C8_duplicate_rows_last_wins (tables : List Table) (name : String)
    (h2 : 2 ≤ (contributions name (allRows tables)).length) :
    dictGet (parseDeviceMessages tables) name
      = (contributions name (allRows tables)).getLast? := by
  have hpm : parseDeviceMessages tables = (allRows tables).foldl snapStep [] :=
    parseDeviceMessagesEqFoldl tables []
  rw [hpm, dictGetFoldlSnapStep name (allRows tables) []]
  cases hl : (contributions name (allRows tables)).getLast? with
  | some v => rfl
  | none =>
    exfalso
    rw [List.getLast?_eq_none_iff] at hl
    rw [hl] at h2
    simp at h2

/-- Witness for C8: two rows named `"Power"`; the snapshot holds the later
one's reading. -/
theorem C8_witness :
    2 ≤ (contributions "Power"
          (allRows [⟨some [⟨["Power", "100 W"]⟩, ⟨["Power", "200 W"]⟩]⟩])).length ∧
    dictGet (parseDeviceMessages [⟨some [⟨["Power", "100 W"]⟩, ⟨["Power", "200 W"]⟩]⟩]) "Power"
      = (contributions "Power"
          (allRows [⟨some [⟨["Power", "100 W"]⟩, ⟨["Power", "200 W"]⟩]⟩])).getLast? :=
  ⟨by decide, C8_duplicate_rows_last_wins _ "Power" (by decide)⟩

/-! ## Claims C1 and C2 -/

/-- Counterexample to C1 as stated: `async_update` never inspects the HTTP
status, so a non-200 response is *not* a failure for the code — its body
is parsed and replaces the cache, and the timestamp is updated.  Here a
404 response whose body contains no tables wipes a previously cached
snapshot. -/
theorem C1_counterexample :
    (asyncUpdate ⟨[("Power", (some 5, some "W"))], 0⟩ 50 50 50 (.resp 404 [])).1.cache
        = [] ∧
    (asyncUpdate ⟨[("Power", (some 5, some "W"))], 0⟩ 50 50 50 (.resp 404 [])).1.lastFetch
        = 50 ∧
    (asyncUpdate ⟨[("Power", (some 5, some "W"))], 0⟩ 50 50 50 (.resp 404 [])).2
        = .updated := by
  have hfr : isFresh ⟨[("Power", (some 5, some "W"))], 0⟩ 50 = false := by
    unfold isFresh
    simp only [Bool.and_eq_false_iff]
    right
    simp only [decide_eq_false_iff_not, not_lt]
    have : (cacheTtl : ℚ) = 30 := by norm_num [cacheTtl, scanIntervalSeconds]
    rw [this]
    norm_num
  unfold asyncUpdate
  rw [hfr]
  exact ⟨rfl, rfl, rfl⟩

/-- C1 (amended): for every fetch failure that raises — timeout,
connection error, or body-decode error, all modelled by
`FetchOutcome.exn` — the cached snapshot and the last-fetch timestamp are
left exactly as they were, and the call returns normally through the
warning-logging path.  (The claim's "non-200 HTTP status" case is removed:
the code does not check the status; see the counterexample.) -/
theorem C1_exception_preserves_state (st : EnpalData) (now1 now2 now3 : Time)
    (msg : String) :
    (asyncUpdate st now1 now2 now3 (.exn msg)).1 = st ∧
    (isFresh st now1 = false → isFresh st now2 = false →
      asyncUpdate st now1 now2 now3 (.exn msg) = (st, .warned msg)) := by
  constructor
  · unfold asyncUpdate
    by_cases h1 : isFresh st now1
    · rw [if_pos h1]
    · rw [if_neg h1]
      by_cases h2 : isFresh st now2
      · rw [if_pos h2]
      · rw [if_neg h2]
  · intro h1 h2
    unfold asyncUpdate
    rw [h1, h2]
    simp

/-- Witness for C1 (amended): a concrete stale state with a failing fetch. -/
theorem C1_witness :
    (asyncUpdate ⟨[], 0⟩ 0 0 0 (.exn "connection refused")).1 = ⟨[], 0⟩ ∧
    (isFresh ⟨[], 0⟩ 0 = false ∧
      asyncUpdate ⟨[], 0⟩ 0 0 0 (.exn "connection refused")
        = (⟨[], 0⟩, .warned "connection refused")) := by
  have hfr : isFresh ⟨[], 0⟩ 0 = false := by
    unfold isFresh
    simp
  exact ⟨(C1_exception_preserves_state ⟨[], 0⟩ 0 0 0 "connection refused").1,
    hfr, (C1_exception_preserves_state ⟨[], 0⟩ 0 0 0 "connection refused").2 hfr hfr⟩

/-- C2: when the cached snapshot is non-empty and the age since the last
fetch is strictly below the TTL, `async_update` returns at once through
the first freshness check — the result is independent of any fetch
outcome and the state is unchanged — and the TTL is half the polling
interval: the polling interval is 60 seconds and the TTL is 30 seconds. -/
theorem C2_fresh_skip_and_ttl (st : EnpalData) (now1 now2 now3 : Time)
    (outcome : FetchOutcome)
    (hne : st.cache ≠ [])
    (hage : now1 - st.lastFetch < (cacheTtl : ℚ)) :
    asyncUpdate st now1 now2 now3 outcome = (st, .skippedFresh) ∧
    scanIntervalSeconds = 60 ∧ (cacheTtl : ℚ) = scanIntervalSeconds / 2 ∧
    cacheTtl = 30 := by
  have hfr : isFresh st now1 = true := by
    unfold isFresh
    simp only [Bool.and_eq_true, Bool.not_eq_true', decide_eq_true_eq]
    exact ⟨by simpa using hne, hage⟩
  refine ⟨?_, rfl, ?_, ?_⟩
  · unfold asyncUpdate
    rw [hfr]
    simp
  · norm_num [cacheTtl, scanIntervalSeconds]
  · norm_num [cacheTtl, scanIntervalSeconds]

/-- Witness for C2: a non-empty snapshot aged 10 seconds is served from
cache. -/
theorem C2_witness :
    (([("A", (some 1, none))] : Snapshot) ≠ []) ∧
    ((10 : ℚ) - 0 < (cacheTtl : ℚ)) ∧
    asyncUpdate ⟨[("A", (some 1, none))], 0⟩ 10 10 10 (.exn "x")
      = (⟨[("A", (some 1, none))], 0⟩, .skippedFresh) := by
  have hlt : (10 : ℚ) - 0 < (cacheTtl : ℚ) := by
    have : (cacheTtl : ℚ) = 30 := by norm_num [cacheTtl, scanIntervalSeconds]
    rw [this]
    norm_num
  exact ⟨by simp, hlt,
    (C2_fresh_skip_and_ttl ⟨[("A", (some 1, none))], 0⟩ 10 10 10 (.exn "x")
      (by simp) hlt).1⟩

theorem freshAfterRefresh (now : Time) (tables0 : List Table)
    (hne : parseDeviceMessages tables0 ≠ []) :
    (!(parseDeviceMessages tables0).isEmpty
      && decide (now - now < (cacheTtl : ℚ))) = true := by
  have h0 : (0 : ℚ) < (cacheTtl : ℚ) := by
    norm_num [cacheTtl, scanIntervalSeconds]
  simp only [Bool.and_eq_true, Bool.not_eq_true', decide_eq_true_eq]
  constructor
  · simpa using hne
  · simpa using h0

theorem updEq (f : Nat → Pc) (i : Nat) (v : Pc) : Function.update f i v i = v := by
  simp

theorem updNe (f : Nat → Pc) (i j : Nat) (v : Pc) (h : j ≠ i) :
    Function.update f i v j = f j := by
  simp [Function.update_apply, h]

theorem invInit (now : Time) (n0 : Nat) (c0 : Snapshot) (l0 : Time)
    (tables0 : List Table) (s : Sys)
    (hinit : InitialSys s) (hn : s.n = n0) (hc : s.cache = c0) (hl : s.lastF = l0) :
    Inv now n0 c0 l0 tables0 s := by
  obtain ⟨hpcs, hholder, hfc⟩ := hinit
  refine ⟨hn, ?_, ?_, ?_, ?_, ?_, ?_⟩
  · intro j hj
    rw [hholder] at hj
    cases hj
  · intro j hj
    rcases hj with hj | hj <;> rw [hpcs j] at hj <;> cases hj
  · intro j _
    exact hpcs j
  · omega
  · intro _
    refine ⟨hc, hl, ?_, ?_⟩
    · intro j hj
      rw [hpcs j] at hj
      cases hj
    · intro j hj
      rw [hpcs j] at hj
      cases hj
  · intro hfc1
    rw [hfc] at hfc1
    cases hfc1

theorem invStep (now : Time) (oracle : Nat → FetchOutcome)
    (n0 : Nat) (c0 : Snapshot) (l0 : Time) (status0 : Nat) (tables0 : List Table)
    (horacle : oracle 0 = .resp status0 tables0)
    (hne : parseDeviceMessages tables0 ≠ [])
    (hstale : (!c0.isEmpty && decide (now - l0 < (cacheTtl : ℚ))) = false)
    {s s' : Sys} (hs : Inv now n0 c0 l0 tables0 s)
    (hstep : Step now oracle s s') : Inv now n0 c0 l0 tables0 s' := by
  obtain ⟨hn, h1, h2, h3, h4, h5, h6⟩ := hs
  -- freshness of the shared state forces fc = 1 with the refreshed cache
  have freshCase : sysFresh now s = true →
      s.fc = 1 ∧ (∀ i, s.pcs i ≠ Pc.fetching) ∧
      s.cache = parseDeviceMessages tables0 ∧ s.lastF = now := by
    intro hf
    have hstaleS : s.cache = c0 → s.lastF = l0 → False := by
      intro hc hl
      unfold sysFresh at hf
      rw [hc, hl] at hf
      rw [hf] at hstale
      cases hstale
    have hfc1 : s.fc = 1 := by
      rcases Nat.lt_or_ge s.fc 1 with hlt | hge
      · obtain ⟨hc, hl, -, -⟩ := h5 (Nat.lt_one_iff.1 hlt)
        exact (hstaleS hc hl).elim
      · omega
    rcases h6 hfc1 with ⟨-, hc, hl⟩ | ⟨hnf, hc, hl⟩
    · exact (hstaleS hc hl).elim
    · exact ⟨hfc1, hnf, hc, hl⟩
  cases hstep with
  | checkFresh i hi hpc hf =>
    obtain ⟨hfc1, hnf, hcache, hlast⟩ := freshCase hf
    refine ⟨hn, ?_, ?_, ?_, h4, ?_, ?_⟩
    · intro j hj
      have hj' : s.holder = some j := hj
      have hjne : j ≠ i := by
        intro he
        subst he
        rcases h1 j hj' with hl | hl <;> rw [hpc] at hl <;> cases hl
      show Function.update s.pcs i Pc.done j = Pc.locked ∨
        Function.update s.pcs i Pc.done j = Pc.fetching
      rw [updNe _ _ _ _ hjne]
      exact h1 j hj'
    · intro j hj
      have hj' : Function.update s.pcs i Pc.done j = Pc.locked ∨
          Function.update s.pcs i Pc.done j = Pc.fetching := hj
      by_cases hji : j = i
      · subst hji
        rw [updEq] at hj'
        rcases hj' with hj' | hj' <;> cases hj'
      · rw [updNe _ _ _ _ hji] at hj'
        exact h2 j hj'
    · intro j hjn
      have hjn' : s.n ≤ j := hjn
      have hji : j ≠ i := by omega
      show Function.update s.pcs i Pc.done j = Pc.start
      rw [updNe _ _ _ _ hji]
      exact h3 j hjn'
    · intro hfc0
      have hfc0' : s.fc = 0 := hfc0
      exfalso
      omega
    · intro _
      right
      refine ⟨?_, hcache, hlast⟩
      intro j
      by_cases hji : j = i
      · subst hji
        show Function.update s.pcs j Pc.done j ≠ Pc.fetching
        rw [updEq]
        intro he
        cases he
      · show Function.update s.pcs i Pc.done j ≠ Pc.fetching
        rw [updNe _ _ _ _ hji]
        exact hnf j
  | checkStale i hi hpc hf =>
    refine ⟨hn, ?_, ?_, ?_, h4, ?_, ?_⟩
    · intro j hj
      have hj' : s.holder = some j := hj
      have hjne : j ≠ i := by
        intro he
        subst he
        rcases h1 j hj' with hl | hl <;> rw [hpc] at hl <;> cases hl
      show Function.update s.pcs i Pc.wait j = Pc.locked ∨
        Function.update s.pcs i Pc.wait j = Pc.fetching
      rw [updNe _ _ _ _ hjne]
      exact h1 j hj'
    · intro j hj
      have hj' : Function.update s.pcs i Pc.wait j = Pc.locked ∨
          Function.update s.pcs i Pc.wait j = Pc.fetching := hj
      by_cases hji : j = i
      · subst hji
        rw [updEq] at hj'
        rcases hj' with hj' | hj' <;> cases hj'
      · rw [updNe _ _ _ _ hji] at hj'
        exact h2 j hj'
    · intro j hjn
      have hjn' : s.n ≤ j := hjn
      have hji : j ≠ i := by omega
      show Function.update s.pcs i Pc.wait j = Pc.start
      rw [updNe _ _ _ _ hji]
      exact h3 j hjn'
    · intro hfc0
      obtain ⟨hc, hl, hnf, hnd⟩ := h5 hfc0
      refine ⟨hc, hl, ?_, ?_⟩
      · intro j
        by_cases hji : j = i
        · subst hji
          show Function.update s.pcs j Pc.wait j ≠ Pc.fetching
          rw [updEq]
          intro he
          cases he
        · show Function.update s.pcs i Pc.wait j ≠ Pc.fetching
          rw [updNe _ _ _ _ hji]
          exact hnf j
      · intro j
        by_cases hji : j = i
        · subst hji
          show Function.update s.pcs j Pc.wait j ≠ Pc.done
          rw [updEq]
          intro he
          cases he
        · show Function.update s.pcs i Pc.wait j ≠ Pc.done
          rw [updNe _ _ _ _ hji]
          exact hnd j
    · intro hfc1
      rcases h6 hfc1 with ⟨⟨j, hjf⟩, hc, hl⟩ | ⟨hnf, hc, hl⟩
      · left
        refine ⟨⟨j, ?_⟩, hc, hl⟩
        have hji : j ≠ i := by
          intro he
          subst he
          rw [hpc] at hjf
          cases hjf
        show Function.update s.pcs i Pc.wait j = Pc.fetching
        rw [updNe _ _ _ _ hji]
        exact hjf
      · right
        refine ⟨?_, hc, hl⟩
        intro j
        by_cases hji : j = i
        · subst hji
          show Function.update s.pcs j Pc.wait j ≠ Pc.fetching
          rw [updEq]
          intro he
          cases he
        · show Function.update s.pcs i Pc.wait j ≠ Pc.fetching
          rw [updNe _ _ _ _ hji]
          exact hnf j
  | acquire i hi hpc hl =>
    refine ⟨hn, ?_, ?_, ?_, h4, ?_, ?_⟩
    · intro j hj
      have hj' : some i = some j := hj
      have hij : j = i := (Option.some_inj.1 hj').symm
      subst hij
      left
      show Function.update s.pcs j Pc.locked j = Pc.locked
      rw [updEq]
    · intro j hj
      have hj' : Function.update s.pcs i Pc.locked j = Pc.locked ∨
          Function.update s.pcs i Pc.locked j = Pc.fetching := hj
      by_cases hji : j = i
      · subst hji
        rfl
      · rw [updNe _ _ _ _ hji] at hj'
        have := h2 j hj'
        rw [hl] at this
        cases this
    · intro j hjn
      have hjn' : s.n ≤ j := hjn
      have hji : j ≠ i := by omega
      show Function.update s.pcs i Pc.locked j = Pc.start
      rw [updNe _ _ _ _ hji]
      exact h3 j hjn'
    · intro hfc0
      obtain ⟨hc, hlf, hnf, hnd⟩ := h5 hfc0
      refine ⟨hc, hlf, ?_, ?_⟩
      · intro j
        by_cases hji : j = i
        · subst hji
          show Function.update s.pcs j Pc.locked j ≠ Pc.fetching
          rw [updEq]
          intro he
          cases he
        · show Function.update s.pcs i Pc.locked j ≠ Pc.fetching
          rw [updNe _ _ _ _ hji]
          exact hnf j
      · intro j
        by_cases hji : j = i
        · subst hji
          show Function.update s.pcs j Pc.locked j ≠ Pc.done
          rw [updEq]
          intro he
          cases he
        · show Function.update s.pcs i Pc.locked j ≠ Pc.done
          rw [updNe _ _ _ _ hji]
          exact hnd j
    · intro hfc1
      rcases h6 hfc1 with ⟨⟨j, hjf⟩, -, -⟩ | ⟨hnf, hc, hlf⟩
      · exfalso
        have := h2 j (Or.inr hjf)
        rw [hl] at this
        cases this
      · right
        refine ⟨?_, hc, hlf⟩
        intro j
        by_cases hji : j = i
        · subst hji
          show Function.update s.pcs j Pc.locked j ≠ Pc.fetching
          rw [updEq]
          intro he
          cases he
        · show Function.update s.pcs i Pc.locked j ≠ Pc.fetching
          rw [updNe _ _ _ _ hji]
          exact hnf j
  | recheckFresh i hi hpc hl hf =>
    obtain ⟨hfc1, hnf, hcache, hlast⟩ := freshCase hf
    refine ⟨hn, ?_, ?_, ?_, h4, ?_, ?_⟩
    · intro j hj
      have hj' : (none : Option Nat) = some j := hj
      cases hj'
    · intro j hj
      have hj' : Function.update s.pcs i Pc.done j = Pc.locked ∨
          Function.update s.pcs i Pc.done j = Pc.fetching := hj
      by_cases hji : j = i
      · subst hji
        rw [updEq] at hj'
        rcases hj' with hj' | hj' <;> cases hj'
      · rw [updNe _ _ _ _ hji] at hj'
        exfalso
        have := h2 j hj'
        rw [hl] at this
        exact hji (Option.some_inj.1 this).symm
    · intro j hjn
      have hjn' : s.n ≤ j := hjn
      have hji : j ≠ i := by omega
      show Function.update s.pcs i Pc.done j = Pc.start
      rw [updNe _ _ _ _ hji]
      exact h3 j hjn'
    · intro hfc0
      have hfc0' : s.fc = 0 := hfc0
      exfalso
      omega
    · intro _
      right
      refine ⟨?_, hcache, hlast⟩
      intro j
      by_cases hji : j = i
      · subst hji
        show Function.update s.pcs j Pc.done j ≠ Pc.fetching
        rw [updEq]
        intro he
        cases he
      · show Function.update s.pcs i Pc.done j ≠ Pc.fetching
        rw [updNe _ _ _ _ hji]
        exact hnf j
  | recheckStale i hi hpc hl hf =>
    have hfc0 : s.fc = 0 := by
      rcases Nat.lt_or_ge s.fc 1 with hlt | hge
      · exact Nat.lt_one_iff.1 hlt
      · exfalso
        have hfc1 : s.fc = 1 := by omega
        rcases h6 hfc1 with ⟨⟨j, hjf⟩, -, -⟩ | ⟨-, hc, hlf⟩
        · have := h2 j (Or.inr hjf)
          rw [hl] at this
          have hji : j = i := (Option.some_inj.1 this).symm
          subst hji
          rw [hpc] at hjf
          cases hjf
        · unfold sysFresh at hf
          rw [hc, hlf] at hf
          rw [freshAfterRefresh now tables0 hne] at hf
          cases hf
    obtain ⟨hcache, hlast, -, -⟩ := h5 hfc0
    refine ⟨hn, ?_, ?_, ?_, ?_, ?_, ?_⟩
    · intro j hj
      have hj' : s.holder = some j := hj
      rw [hl] at hj'
      have hji : j = i := (Option.some_inj.1 hj').symm
      subst hji
      right
      show Function.update s.pcs j Pc.fetching j = Pc.fetching
      rw [updEq]
    · intro j hj
      have hj' : Function.update s.pcs i Pc.fetching j = Pc.locked ∨
          Function.update s.pcs i Pc.fetching j = Pc.fetching := hj
      by_cases hji : j = i
      · subst hji
        exact hl
      · rw [updNe _ _ _ _ hji] at hj'
        have := h2 j hj'
        rw [hl] at this
        exact absurd (Option.some_inj.1 this).symm hji
    · intro j hjn
      have hjn' : s.n ≤ j := hjn
      have hji : j ≠ i := by omega
      show Function.update s.pcs i Pc.fetching j = Pc.start
      rw [updNe _ _ _ _ hji]
      exact h3 j hjn'
    · show s.fc + 1 ≤ 1
      omega
    · intro hfc0'
      exfalso
      have : s.fc + 1 = 0 := hfc0'
      omega
    · intro _
      left
      refine ⟨⟨i, ?_⟩, hcache, hlast⟩
      show Function.update s.pcs i Pc.fetching i = Pc.fetching
      rw [updEq]
  | fetchExn i hi hpc hl msg ho =>
    exfalso
    have hfc1 : s.fc = 1 := by
      rcases Nat.lt_or_ge s.fc 1 with hlt | hge
      · obtain ⟨-, -, hnf, -⟩ := h5 (Nat.lt_one_iff.1 hlt)
        exact absurd hpc (hnf i)
      · omega
    rw [hfc1] at ho
    simp only [Nat.sub_self] at ho
    rw [horacle] at ho
    cases ho
  | fetchResp i hi hpc hl status tables ho =>
    have hfc1 : s.fc = 1 := by
      rcases Nat.lt_or_ge s.fc 1 with hlt | hge
      · exfalso
        obtain ⟨-, -, hnf, -⟩ := h5 (Nat.lt_one_iff.1 hlt)
        exact absurd hpc (hnf i)
      · omega
    have htab : tables = tables0 := by
      rw [hfc1] at ho
      simp only [Nat.sub_self] at ho
      rw [horacle] at ho
      cases ho
      rfl
    refine ⟨hn, ?_, ?_, ?_, h4, ?_, ?_⟩
    · intro j hj
      have hj' : (none : Option Nat) = some j := hj
      cases hj'
    · intro j hj
      have hj' : Function.update s.pcs i Pc.done j = Pc.locked ∨
          Function.update s.pcs i Pc.done j = Pc.fetching := hj
      by_cases hji : j = i
      · subst hji
        rw [updEq] at hj'
        rcases hj' with hj' | hj' <;> cases hj'
      · rw [updNe _ _ _ _ hji] at hj'
        exfalso
        have := h2 j hj'
        rw [hl] at this
        exact hji (Option.some_inj.1 this).symm
    · intro j hjn
      have hjn' : s.n ≤ j := hjn
      have hji : j ≠ i := by omega
      show Function.update s.pcs i Pc.done j = Pc.start
      rw [updNe _ _ _ _ hji]
      exact h3 j hjn'
    · intro hfc0
      have hfc0' : s.fc = 0 := hfc0
      exfalso
      omega
    · intro _
      right
      refine ⟨?_, ?_, rfl⟩
      · intro j
        by_cases hji : j = i
        · subst hji
          show Function.update s.pcs j Pc.done j ≠ Pc.fetching
          rw [updEq]
          intro he
          cases he
        · show Function.update s.pcs i Pc.done j ≠ Pc.fetching
          rw [updNe _ _ _ _ hji]
          intro hjf
          have := h2 j (Or.inr hjf)
          rw [hl] at this
          exact hji (Option.some_inj.1 this).symm
      · show parseDeviceMessages tables = parseDeviceMessages tables0
        rw [htab]

theorem invReachable (now : Time) (oracle : Nat → FetchOutcome)
    (n0 : Nat) (c0 : Snapshot) (l0 : Time) (status0 : Nat) (tables0 : List Table)
    (horacle : oracle 0 = .resp status0 tables0)
    (hne : parseDeviceMessages tables0 ≠ [])
    (hstale : (!c0.isEmpty && decide (now - l0 < (cacheTtl : ℚ))) = false)
    {s0 s : Sys} (h0 : Inv now n0 c0 l0 tables0 s0)
    (hr : Reachable now oracle s0 s) : Inv now n0 c0 l0 tables0 s := by
  induction hr with
  | refl => exact h0
  | tail hr hstep ih =>
    exact invStep now oracle n0 c0 l0 status0 tables0 horacle hne hstale ih hstep

/-- C3 (amended): N interleaved `refresh()` calls on one stale
`_EnpalData` instance dispatch exactly one HTTP GET — each caller
re-checks freshness after acquiring the lock and returns without fetching
when another caller refreshed meanwhile — *provided* the first dispatched
fetch returns a response whose extracted snapshot is non-empty; and every
caller then observes that snapshot as the final cache.  (The claim as
frozen omits the proviso; the counterexample shows that with a failing
fetch each of the N callers dispatches its own GET.) -/
theorem C3_single_fetch_under_contention
    (now : Time) (oracle : Nat → FetchOutcome) (s0 sf : Sys)
    (status0 : Nat) (tables0 : List Table)
    (hinit : InitialSys s0)
    (hN : 1 ≤ s0.n)
    (hstale : sysFresh now s0 = false)
    (horacle : oracle 0 = .resp status0 tables0)
    (hne : parseDeviceMessages tables0 ≠ [])
    (hr : Reachable now oracle s0 sf)
    (hterm : TerminalSys sf) :
    sf.fc = 1 ∧ sf.cache = parseDeviceMessages tables0 := by
  have hstale' : (!s0.cache.isEmpty && decide (now - s0.lastF < (cacheTtl : ℚ))) = false :=
    hstale
  have hinv0 : Inv now s0.n s0.cache s0.lastF tables0 s0 :=
    invInit now s0.n s0.cache s0.lastF tables0 s0 hinit rfl rfl rfl
  have hinv := invReachable now oracle s0.n s0.cache s0.lastF status0 tables0
    horacle hne hstale' hinv0 hr
  obtain ⟨hn, h1, h2, h3, h4, h5, h6⟩ := hinv
  have h0done : sf.pcs 0 = Pc.done := hterm 0 (by omega)
  have hfc1 : sf.fc = 1 := by
    rcases Nat.lt_or_ge sf.fc 1 with hlt | hge
    · obtain ⟨-, -, -, hnd⟩ := h5 (Nat.lt_one_iff.1 hlt)
      exact absurd h0done (hnd 0)
    · omega
  rcases h6 hfc1 with ⟨⟨j, hjf⟩, -, -⟩ | ⟨-, hc, -⟩
  · exfalso
    rcases Nat.lt_or_ge j sf.n with hj | hj
    · rw [hterm j hj] at hjf
      cases hjf
    · rw [h3 j hj] at hjf
      cases hjf
  · exact ⟨hfc1, hc⟩

/-- Witness for C3 (amended): a concrete run of one caller on a stale
cache, fetching `demoTables`, reaching a terminal state with exactly one
GET. -/
theorem C3_witness :
    InitialSys c3S0 ∧ 1 ≤ c3S0.n ∧ sysFresh 0 c3S0 = false ∧
    c3Oracle 0 = .resp 200 demoTables ∧ parseDeviceMessages demoTables ≠ [] ∧
    Reachable 0 c3Oracle c3S0 c3Sf ∧ TerminalSys c3Sf ∧
    c3Sf.fc = 1 ∧ c3Sf.cache = parseDeviceMessages demoTables := by
  have hinit : InitialSys c3S0 := ⟨fun _ => rfl, rfl, rfl⟩
  have hstale : sysFresh 0 c3S0 = false := rfl
  have hne : parseDeviceMessages demoTables ≠ [] := by decide
  have htrace : Reachable 0 c3Oracle c3S0 c3Sf := by
    refine Relation.ReflTransGen.head (Step.checkStale c3S0 0 (by decide) rfl rfl) ?_
    refine Relation.ReflTransGen.head (Step.acquire _ 0 (by decide) rfl rfl) ?_
    refine Relation.ReflTransGen.head (Step.recheckStale _ 0 (by decide) rfl rfl rfl) ?_
    refine Relation.ReflTransGen.head
      (Step.fetchResp _ 0 (by decide) rfl rfl 200 demoTables rfl) ?_
    exact Relation.ReflTransGen.refl
  have hterm : TerminalSys c3Sf := by
    intro i hi
    have hi1 : i < 1 := hi
    have hi0 : i = 0 := by omega
    subst hi0
    rfl
  refine ⟨hinit, by decide, hstale, rfl, hne, htrace, hterm, ?_⟩
  exact C3_single_fetch_under_contention 0 c3Oracle c3S0 c3Sf 200 demoTables
    hinit (by decide) hstale rfl hne htrace hterm

/-- Counterexample to C3 as stated: with two concurrent callers on a stale
cache and a fetch that fails (connection refused), the first caller's
failed GET leaves the state stale, so the second caller's re-check under
the lock finds it stale and dispatches a second GET — the terminal state
counts two GETs, not one. -/
theorem C3_counterexample :
    InitialSys cexS0 ∧ sysFresh 0 cexS0 = false ∧
    ¬ (∀ sf : Sys, Reachable 0 cexOracle cexS0 sf → TerminalSys sf → sf.fc = 1) := by
  refine ⟨⟨fun _ => rfl, rfl, rfl⟩, rfl, ?_⟩
  intro hclaim
  have htrace : Reachable 0 cexOracle cexS0 cexSf := by
    refine Relation.ReflTransGen.head (Step.checkStale cexS0 0 (by decide) rfl rfl) ?_
    refine Relation.ReflTransGen.head (Step.acquire _ 0 (by decide) rfl rfl) ?_
    refine Relation.ReflTransGen.head (Step.recheckStale _ 0 (by decide) rfl rfl rfl) ?_
    refine Relation.ReflTransGen.head
      (Step.fetchExn _ 0 (by decide) rfl rfl "connection refused" rfl) ?_
    refine Relation.ReflTransGen.head (Step.checkStale _ 1 (by decide) rfl rfl) ?_
    refine Relation.ReflTransGen.head (Step.acquire _ 1 (by decide) rfl rfl) ?_
    refine Relation.ReflTransGen.head (Step.recheckStale _ 1 (by decide) rfl rfl rfl) ?_
    refine Relation.ReflTransGen.head
      (Step.fetchExn _ 1 (by decide) rfl rfl "connection refused" rfl) ?_
    exact Relation.ReflTransGen.refl
  have hterm : TerminalSys cexSf := by
    intro i hi
    have hi2 : i < 2 := hi
    interval_cases i
    · rfl
    · rfl
  have hone := hclaim cexSf htrace hterm
  have htwo : cexSf.fc = 2 := rfl
  omega

/-! ## C9: the probe is *not* "success iff 200" -/

/-- Counterexample to C9 as stated: a 200 response whose body does not
contain the word "power" is reported as failure, so success is not
equivalent to "status = 200". -/
theorem C9_counterexample :
    ¬ ((validate_device_messages (.resp 200 "<html></html>") = true) ↔ 200 = 200) := by
  decide

/-- C9 (amended): the configuration-time probe of `/deviceMessages`
reports success iff the HTTP status is 200 *and* the lowercased response
body contains the substring `"power"`; a raised exception reports
failure. -/
theorem C9_probe_success_iff (status : Nat) (body : String) :
    (validate_device_messages (.resp status body) = true ↔
      (status = 200 ∧ hasSubstring (body.data.map asciiLower) "power".data = true)) ∧
    (∀ msg, validate_device_messages (.exn msg) = false) := by
  constructor
  · show (if status = 200 then hasSubstring (body.data.map asciiLower) "power".data
        else false) = true ↔ _
    by_cases hs : status = 200
    · rw [if_pos hs]
      constructor
      · intro h
        exact ⟨hs, h⟩
      · intro h
        exact h.2
    · rw [if_neg hs]
      constructor
      · intro h
        cases h
      · intro h
        exact absurd h.1 hs
  · intro msg
    rfl

/-- Witness for C9 (amended) at concrete responses. -/
theorem C9_witness :
    (validate_device_messages (.resp 200 "<p>Power: 5W</p>") = true ↔
      (200 = 200 ∧
        hasSubstring (("<p>Power: 5W</p>" : String).data.map asciiLower)
          "power".data = true)) ∧
    validate_device_messages (.exn "timeout") = false :=
  ⟨(C9_probe_success_iff 200 "<p>Power: 5W</p>").1,
   (C9_probe_success_iff 200 "<p>Power: 5W</p>").2 "timeout"⟩

/-! ## C10: characterisation of `validate_ipv4` and the rejected default -/

theorem splitDotNeNil (cs : List Char) : splitDot cs ≠ [] := by
  cases cs with
  | nil => simp [splitDot]
  | cons c rest =>
    simp only [splitDot]
    cases hs : splitDot rest with
    | nil => simp
    | cons p ps =>
      by_cases hc : c = '.' <;> simp [hc]

theorem joinSplit : ∀ cs : List Char, joinDots (splitDot cs) = cs := by
  intro cs
  induction cs with
  | nil => rfl
  | cons c rest ih =>
    simp only [splitDot]
    cases hs : splitDot rest with
    | nil => exact absurd hs (splitDotNeNil rest)
    | cons p ps =>
      rw [hs] at ih
      show joinDots (if c = '.' then [] :: p :: ps else (c :: p) :: ps) = c :: rest
      by_cases hc : c = '.'
      · rw [if_pos hc]
        subst hc
        show ([] : List Char) ++ '.' :: joinDots (p :: ps) = '.' :: rest
        rw [List.nil_append, ih]
      · rw [if_neg hc]
        cases ps with
        | nil =>
          show c :: p = c :: rest
          have hp : p = rest := ih
          rw [hp]
        | cons q qs =>
          show (c :: p) ++ '.' :: joinDots (q :: qs) = c :: rest
          have ih' : p ++ '.' :: joinDots (q :: qs) = rest := ih
          rw [← ih']
          rfl

theorem splitDotFree : ∀ p : List Char, (∀ c ∈ p, c ≠ '.') → splitDot p = [p] := by
  intro p
  induction p with
  | nil => intro _; rfl
  | cons c rest ih =>
    intro h
    simp only [splitDot]
    simp only [ih (fun d hd => h d (by simp [hd]))]
    rw [if_neg (h c (by simp))]

theorem splitAppendDot : ∀ (p rest : List Char), (∀ c ∈ p, c ≠ '.') →
    splitDot (p ++ '.' :: rest) = p :: splitDot rest := by
  intro p
  induction p with
  | nil =>
    intro rest _
    simp only [List.nil_append, splitDot]
    cases hs : splitDot rest with
    | nil => exact absurd hs (splitDotNeNil rest)
    | cons q qs =>
      show (if ('.' : Char) = '.' then [] :: q :: qs else ('.' :: q) :: qs) = [] :: q :: qs
      rw [if_pos rfl]
  | cons c p' ih =>
    intro rest h
    have ih' := ih rest (fun d hd => h d (by simp [hd]))
    show (match splitDot (p' ++ '.' :: rest) with
      | [] => [[]]
      | p :: ps => if c = '.' then [] :: p :: ps else (c :: p) :: ps)
      = (c :: p') :: splitDot rest
    rw [ih']
    show (if c = '.' then [] :: p' :: splitDot rest else (c :: p') :: splitDot rest)
      = (c :: p') :: splitDot rest
    rw [if_neg (h c (by simp))]

theorem listLenFour {α : Type} (l : List α) (hl : l.length = 4) :
    ∃ a b c d, l = [a, b, c, d] := by
  match l, hl with
  | [a, b, c, d], _ => exact ⟨a, b, c, d, rfl⟩
  | [], hl => simp at hl
  | [_], hl => simp at hl
  | [_, _], hl => simp at hl
  | [_, _, _], hl => simp at hl
  | _ :: _ :: _ :: _ :: _ :: _, hl =>
    simp only [List.length_cons] at hl
    omega

theorem validPartIff (p : List Char) : validPart p = true ↔ ipv4PartOk p := by
  unfold validPart ipv4PartOk
  simp [List.all_eq_true, List.isEmpty_iff, and_assoc]

/-- C10: `validate_ipv4` accepts exactly the strings of four dot-separated
all-digit parts denoting integers in 0..255; in particular the config
form's pre-filled default host `"192.168.178"` (three parts) is rejected,
so submitting the form unedited always produces the `invalid_ip` error,
whatever the reachability probe would answer. -/
theorem C10_ipv4_and_default_rejected :
    (∀ s : String, validate_ipv4 s = true ↔ ipv4SpecDescription s) ∧
    (∀ probeOk : String → Bool,
      async_step_user (some configDefaultHost) probeOk
        = .showForm (some "invalid_ip")) := by
  constructor
  · intro s
    constructor
    · intro h
      unfold validate_ipv4 at h
      by_cases hl : (splitDot s.data).length ≠ 4
      · rw [if_pos hl] at h
        cases h
      · rw [if_neg hl] at h
        push_neg at hl
        obtain ⟨p1, p2, p3, p4, he⟩ := listLenFour _ hl
        have hphys := joinSplit s.data
        rw [he] at hphys h
        have hdata : s.data = p1 ++ '.' :: (p2 ++ '.' :: (p3 ++ '.' :: p4)) := by
          rw [← hphys]
          rfl
        simp only [List.all_cons, List.all_nil, Bool.and_eq_true] at h
        exact ⟨p1, p2, p3, p4, hdata,
          (validPartIff p1).1 h.1, (validPartIff p2).1 h.2.1,
          (validPartIff p3).1 h.2.2.1, (validPartIff p4).1 h.2.2.2.1⟩
    · rintro ⟨p1, p2, p3, p4, hdata, h1, h2, h3, h4⟩
      have hdot : ∀ (p : List Char), ipv4PartOk p → ∀ c ∈ p, c ≠ '.' := by
        intro p hp c hc heq
        subst heq
        exact absurd (hp.2.1 _ hc) (by decide)
      unfold validate_ipv4
      have hsplit : splitDot s.data = [p1, p2, p3, p4] := by
        rw [hdata,
          splitAppendDot p1 _ (hdot p1 h1),
          splitAppendDot p2 _ (hdot p2 h2),
          splitAppendDot p3 _ (hdot p3 h3),
          splitDotFree p4 (hdot p4 h4)]
      rw [hsplit]
      rw [if_neg (by simp)]
      simp only [List.all_cons, List.all_nil, Bool.and_eq_true]
      exact ⟨(validPartIff p1).2 h1, (validPartIff p2).2 h2,
        (validPartIff p3).2 h3, (validPartIff p4).2 h4, trivial⟩
  · intro probeOk
    show (if !validate_ipv4 configDefaultHost then FlowResult.showForm (some "invalid_ip")
      else if !probeOk configDefaultHost then
        FlowResult.showForm (some "invalid_device_messages")
      else FlowResult.createEntry "Enpal" configDefaultHost)
      = FlowResult.showForm (some "invalid_ip")
    have hv : validate_ipv4 configDefaultHost = false := by decide
    rw [hv]
    rfl

/-- Witness for C10 at concrete hosts: a valid dotted quad is accepted
(and satisfies the characterisation), and the default host is rejected by
the form handler. -/
theorem C10_witness :
    validate_ipv4 "192.168.0.1" = true ∧ ipv4SpecDescription "192.168.0.1" ∧
    validate_ipv4 configDefaultHost = false ∧
    async_step_user (some configDefaultHost) (fun _ => true)
      = .showForm (some "invalid_ip") :=
  ⟨by decide,
   (C10_ipv4_and_default_rejected.1 "192.168.0.1").1 (by decide),
   by decide,
   C10_ipv4_and_default_rejected.2 (fun _ => true)⟩

end Enpal
